import Mathlib

/-!
# Verification of the adaptive practice scheduler (`learning_tracker.py`)

Shallow embedding of the tracker module: per-item SM-2 ease/interval
updates, weighted drill selection, log/session truncation, difficulty
labels, global streak statistics and the achievement engine.  Python
floats are modelled as exact rationals (`ℚ`), Python `int` as `ℤ`/`ℕ`,
Python dicts (insertion ordered) as association lists, and the ambient
clock (`datetime.now()`) as explicit parameters (ISO string, local hour,
today/yesterday date strings, elapsed whole days).
-/

namespace Maruni

/-- Python `int(x)` on a rational: truncation toward zero. -/
def pyInt (x : ℚ) : ℤ := if 0 ≤ x then ⌊x⌋ else ⌈x⌉

/-- Python `l[-n:]`: the suffix of the last `n` elements (whole list if shorter). -/
def pyLastN (n : Nat) (l : List α) : List α := l.drop (l.length - n)

/-- One drill record, as stored in `data["drills"][drill_id]`. -/
structure DrillRecord where
  correct : Nat
  incorrect : Nat
  last_seen : Option String
  ease_factor : ℚ
  interval : ℤ
  category : String
  file : String
  deriving Repr, DecidableEq

/-- The record created for a drill id not yet present (`record_answer`). -/
def initDrill (category file : String) : DrillRecord :=
  { correct := 0, incorrect := 0, last_seen := none,
    ease_factor := 2.5, interval := 1, category := category, file := file }

/-- The per-drill mutation performed by `record_answer` once the record
exists: set `last_seen`, then on correct bump `correct`, raise the ease
factor (floored at 1.3) and grow the interval by `int(interval * ease)`;
on incorrect bump `incorrect`, lower the ease factor (floored at 1.3)
and reset the interval to 1. -/
def updateDrill (d : DrillRecord) (nowIso : String) (correct : Bool) : DrillRecord :=
  let d := { d with last_seen := some nowIso }
  if correct then
    let ef := max 1.3 (d.ease_factor + 0.1)
    { d with correct := d.correct + 1,
             ease_factor := ef,
             interval := pyInt ((d.interval : ℚ) * ef) }
  else
    { d with incorrect := d.incorrect + 1,
             ease_factor := max 1.3 (d.ease_factor - 0.2),
             interval := 1 }

/-- Iterate `updateDrill` over a sequence of (timestamp, correctness) answers. -/
def applyAnswers (l : List (String × Bool)) (d : DrillRecord) : DrillRecord :=
  l.foldl (fun d p => updateDrill d p.1 p.2) d

/-- The record invariant of the spec: ease factor at least 1.3, interval at least 1. -/
def DrillInv (d : DrillRecord) : Prop := 1.3 ≤ d.ease_factor ∧ 1 ≤ d.interval

/-- Insertion-ordered key/value maps (Python dicts) as association lists:
lookup returns the first entry with the given key. -/
def alLookup : List (String × β) → String → Option β
  | [], _ => none
  | p :: rest, k => if p.1 = k then some p.2 else alLookup rest k

/-- Update the value stored at key `k` in place (Python `d[k] = ...` /
in-place mutation of `d[k]` for an existing key): positions are kept. -/
def alSet (l : List (String × β)) (k : String) (f : β → β) : List (String × β) :=
  l.map (fun p => if p.1 = k then (p.1, f p.2) else p)

/-- `get_drill_id`: the item key is the file name joined by `::` with the
first 50 characters of the question text. -/
def get_drill_id (file question : String) : String :=
  file ++ "::" ++ question.take 50

/-- A per-category aggregate, `data["categories"][category]`. -/
structure CatRecord where
  correct : Nat
  incorrect : Nat
  deriving Repr, DecidableEq

/-- One `answers_log` entry. -/
structure LogEntry where
  date : String
  correct : Bool
  file : String
  category : String
  deriving Repr, DecidableEq

/-- One `sessions` entry. -/
structure SessionRecord where
  date : String
  file : String
  score : ℤ
  total : ℤ
  deriving Repr, DecidableEq

/-- An achievement record, `data["achievements"][aid]`. -/
structure AchRecord where
  unlocked_at : String
  seen : Bool
  deriving Repr, DecidableEq

/-- The global stats record, `data["stats"]`. -/
structure GlobalStats where
  total_correct : Nat
  total_incorrect : Nat
  current_streak : Nat
  best_streak : Nat
  session_correct : Nat
  session_incorrect : Nat
  days_streak : Nat
  last_practice_date : Option String
  deriving Repr, DecidableEq

/-- The whole persisted document (`_empty_data` shape). -/
structure TrackerData where
  drills : List (String × DrillRecord)
  sessions : List SessionRecord
  categories : List (String × CatRecord)
  answers_log : List LogEntry
  achievements : List (String × AchRecord)
  stats : GlobalStats
  deriving Repr, DecidableEq

/-- `_empty_data()`: the canonical empty state. -/
def emptyData : TrackerData :=
  { drills := [], sessions := [], categories := [], answers_log := [],
    achievements := [],
    stats := { total_correct := 0, total_incorrect := 0, current_streak := 0,
               best_streak := 0, session_correct := 0, session_incorrect := 0,
               days_streak := 0, last_practice_date := none } }

/-- `record_answer`: create the drill record if absent, apply the SM-2
update, update the category aggregate, append one answer-log entry and
truncate the log to its last 5000 entries. -/
def record_answer (file question category : String) (correct : Bool)
    (nowIso : String) (data : TrackerData) : TrackerData :=
  let drill_id := get_drill_id file question
  let drills := if (alLookup data.drills drill_id).isSome then data.drills
    else data.drills ++ [(drill_id, initDrill category file)]
  let drills := alSet drills drill_id (fun d => updateDrill d nowIso correct)
  let cats := if (alLookup data.categories category).isSome then data.categories
    else data.categories ++ [(category, { correct := 0, incorrect := 0 })]
  let cats := alSet cats category (fun c =>
    if correct then { c with correct := c.correct + 1 }
    else { c with incorrect := c.incorrect + 1 })
  let log := pyLastN 5000 (data.answers_log ++
    [{ date := nowIso, correct := correct, file := file, category := category }])
  { data with drills := drills, categories := cats, answers_log := log }

/-- `record_session`: append one session entry and truncate to the last 1000. -/
def record_session (file : String) (score total : ℤ) (nowIso : String)
    (data : TrackerData) : TrackerData :=
  { data with sessions := pyLastN 1000 (data.sessions ++
      [{ date := nowIso, file := file, score := score, total := total }]) }

/-- The weight computation of `get_drill_weight` on a present record.
`daysAgo` is `(datetime.now() - last_seen).days`, the elapsed whole days,
passed explicitly since the clock is ambient in the source. -/
def drillWeightOf (d : DrillRecord) (daysAgo : ℤ) : ℚ :=
  let total := d.correct + d.incorrect
  if total = 0 then 1
  else
    let error_rate : ℚ := (d.incorrect : ℚ) / (total : ℚ)
    let time_factor : ℚ :=
      match d.last_seen with
      | none => 1
      | some _ => if daysAgo ≥ d.interval
          then 1 + ((daysAgo : ℚ) / (d.interval : ℚ)) * 0.5 else 1
    let weight := (0.3 + error_rate * 0.7) * time_factor
    max 0.1 (min 3.0 weight)

/-- `get_drill_weight`: 1.0 for an unknown drill id, else `drillWeightOf`. -/
def get_drill_weight (data : TrackerData) (file question : String)
    (daysAgo : ℤ) : ℚ :=
  match alLookup data.drills (get_drill_id file question) with
  | none => 1
  | some d => drillWeightOf d daysAgo

/-- `get_drill_difficulty`: difficulty label and correct percentage. -/
def get_drill_difficulty (data : TrackerData) (file question : String) :
    String × ℚ :=
  match alLookup data.drills (get_drill_id file question) with
  | none => ("Nieuw", -1)
  | some d =>
    let total := d.correct + d.incorrect
    if total = 0 then ("Nieuw", -1)
    else
      let pct : ℚ := (d.correct : ℚ) / (total : ℚ) * 100
      if pct ≥ 80 then ("Makkelijk", pct)
      else if pct ≥ 50 then ("Medium", pct)
      else ("Moeilijk", pct)

/-- A candidate drill handed to the selector; only its question text is
used (for key derivation). -/
structure Drill where
  question : String
  deriving Repr, DecidableEq

/-- The cumulative walk of `select_weighted_drill`: running over
(drill, probability) pairs, accumulate the probabilities and return the
first drill whose cumulative probability reaches the draw `r`. -/
def cumWalk : List (Drill × ℚ) → ℚ → ℚ → Option Drill
  | [], _, _ => none
  | (d, p) :: rest, r, cumulative =>
    if r ≤ cumulative + p then some d else cumWalk rest r (cumulative + p)

/-- `select_weighted_drill`: `None` on an empty candidate list; otherwise
compute each candidate's weight, normalize to probabilities, walk the
cumulative distribution against the draw `r` and fall back to the last
candidate when the walk selects nothing.  `days` gives the elapsed whole
days since each question was last seen (the ambient clock of the source). -/
def select_weighted_drill (data : TrackerData) (drills : List Drill)
    (file : String) (days : String → ℤ) (r : ℚ) : Option Drill :=
  if drills = [] then none
  else
    let weights := drills.map
      (fun d => get_drill_weight data file d.question (days d.question))
    let total_weight := weights.sum
    let probabilities := weights.map (fun w => w / total_weight)
    match cumWalk (drills.zip probabilities) r 0 with
    | some d => some d
    | none => drills.getLast?

/-- The two persisted mutating operations relevant to the log/session
bounds, with their clock inputs made explicit. -/
inductive TrackerOp
  | answer (file question category : String) (correct : Bool) (nowIso : String)
  | session (file : String) (score total : ℤ) (nowIso : String)
  deriving Repr, DecidableEq

/-- Apply one operation to the persisted state. -/
def applyOp (op : TrackerOp) (data : TrackerData) : TrackerData :=
  match op with
  | .answer f q cat b iso => record_answer f q cat b iso data
  | .session f s t iso => record_session f s t iso data

/-- Apply a whole sequence of operations, oldest first. -/
def applyOps (ops : List TrackerOp) (data : TrackerData) : TrackerData :=
  ops.foldl (fun d op => applyOp op d) data

/-- The correct percentage of an answered item, as in the spec:
`pct = correctCount / total * 100`. -/
def pctOf (d : DrillRecord) : ℚ :=
  (d.correct : ℚ) / ((d.correct : ℚ) + (d.incorrect : ℚ)) * 100

/-- A concrete answered drill record used to witness C3. -/
def weightWitnessDrill : DrillRecord :=
  { correct := 1, incorrect := 1, last_seen := some "t0", ease_factor := 2.5,
    interval := 2, category := "cat", file := "f.md" }

/-- A concrete store holding `weightWitnessDrill` under its drill id. -/
def weightWitnessData : TrackerData :=
  { emptyData with drills := [(get_drill_id "f.md" "q", weightWitnessDrill)] }

/-- A concrete store holding an item answered correctly 8 times and
incorrectly 2 times, to witness C8. -/
def difficultyWitnessData : TrackerData :=
  { emptyData with drills := [(get_drill_id "f.md" "q",
      { correct := 8, incorrect := 2, last_seen := some "t0",
        ease_factor := 2.5, interval := 1, category := "cat", file := "f.md" })] }

/-- `unlock(aid)` inside `check_achievements`: if the id is not yet present,
add its record (current timestamp, not seen) and append the id to the
newly-unlocked list; otherwise leave the state untouched. -/
def unlock (aid nowIso : String)
    (st : List (String × AchRecord) × List String) :
    List (String × AchRecord) × List String :=
  if (alLookup st.1 aid).isSome then st
  else (st.1 ++ [(aid, { unlocked_at := nowIso, seen := false })], st.2 ++ [aid])

/-- The ordered unlock conditions of `check_achievements`, evaluated against
the already-updated stats and the local hour (a `Nat`, so the source's
`0 <= hour` guard on the night-owl check is automatic). -/
def unlockChecks (stats : GlobalStats) (hour : Nat) : List (Bool × String) :=
  [ (decide (stats.total_correct ≥ 1), "first_blood"),
    (decide (stats.current_streak ≥ 10), "on_fire"),
    (decide (stats.current_streak ≥ 20), "perfectionist"),
    (decide (stats.current_streak ≥ 25), "unstoppable"),
    (decide (stats.session_correct ≥ 100), "big_brain"),
    (decide (stats.session_incorrect ≥ 50), "masochist"),
    (decide (stats.total_correct ≥ 100), "centurion"),
    (decide (stats.total_correct ≥ 500), "scholar"),
    (decide (stats.total_correct ≥ 1000), "master"),
    (decide (hour < 5), "night_owl"),
    (decide (5 ≤ hour ∧ hour < 7), "early_bird"),
    (decide (stats.days_streak ≥ 7), "streak_week"),
    (decide (stats.current_streak ≥ 5 ∧ stats.session_incorrect ≥ 5),
      "comeback") ]

/-- Run the unlock checks in their declared order (the source's sequence of
`if cond: unlock(aid)` statements). -/
def runUnlocks (checks : List (Bool × String)) (nowIso : String)
    (st : List (String × AchRecord) × List String) :
    List (String × AchRecord) × List String :=
  match checks with
  | [] => st
  | (c, aid) :: rest =>
    runUnlocks rest nowIso (if c then unlock aid nowIso st else st)

/-- Phase 1 of `check_achievements`: update totals, session counts and the
streak; on a correct answer the best streak becomes the new current streak
whenever that exceeds it, on an incorrect answer the current streak resets
to 0. -/
def updateStatsAnswer (correct : Bool) (stats : GlobalStats) : GlobalStats :=
  if correct then
    let cs := stats.current_streak + 1
    { stats with total_correct := stats.total_correct + 1,
                 session_correct := stats.session_correct + 1,
                 current_streak := cs,
                 best_streak := if cs > stats.best_streak then cs
                   else stats.best_streak }
  else
    { stats with total_incorrect := stats.total_incorrect + 1,
                 session_incorrect := stats.session_incorrect + 1,
                 current_streak := 0 }

/-- Phase 2 of `check_achievements`: the day-streak update against today's
and yesterday's calendar dates. -/
def updateStatsDay (today yesterday : String) (stats : GlobalStats) :
    GlobalStats :=
  if stats.last_practice_date ≠ some today then
    let ds := if stats.last_practice_date = some yesterday
        then stats.days_streak + 1
      else if stats.last_practice_date = none then 1
      else 1
    { stats with days_streak := ds, last_practice_date := some today }
  else stats

/-- `check_achievements`: update the global stats from the answer and the
calendar, then run the ordered unlock checks; returns the new state and the
newly unlocked ids. -/
def check_achievements (correct : Bool) (hour : Nat)
    (today yesterday nowIso : String) (data : TrackerData) :
    TrackerData × List String :=
  let stats := updateStatsDay today yesterday
    (updateStatsAnswer correct data.stats)
  let st := runUnlocks (unlockChecks stats hour) nowIso (data.achievements, [])
  ({ data with stats := stats, achievements := st.1 }, st.2)

/-- `mark_achievement_seen`: set the `seen` flag of an unlocked achievement,
leaving everything else untouched. -/
def mark_achievement_seen (aid : String) (data : TrackerData) : TrackerData :=
  if (alLookup data.achievements aid).isSome then
    let achs := alSet data.achievements aid (fun r => { r with seen := true })
    { data with achievements := achs }
  else data

/-- Operations that touch the achievements map. -/
inductive AchOp
  | check (correct : Bool) (hour : Nat) (today yesterday nowIso : String)
  | markSeen (aid : String)
  deriving Repr, DecidableEq

/-- Apply one achievements-touching operation. -/
def applyAchOp (op : AchOp) (data : TrackerData) : TrackerData :=
  match op with
  | .check c hour today yesterday nowIso =>
    (check_achievements c hour today yesterday nowIso data).1
  | .markSeen aid => mark_achievement_seen aid data

/-- Apply a whole sequence of achievements-touching operations. -/
def applyAchOps (ops : List AchOp) (data : TrackerData) : TrackerData :=
  ops.foldl (fun d op => applyAchOp op d) data

/-- The explicit clock inputs of one `check_achievements` call. -/
structure CheckCall where
  correct : Bool
  hour : Nat
  today : String
  yesterday : String
  nowIso : String
  deriving Repr, DecidableEq

/-- Run a sequence of `check_achievements` calls, threading the state. -/
def runChecks (calls : List CheckCall) (data : TrackerData) : TrackerData :=
  calls.foldl (fun d c =>
    (check_achievements c.correct c.hour c.today c.yesterday c.nowIso d).1) data

/-- Count of leading `true` values. -/
def leadingTrue : List Bool → Nat
  | [] => 0
  | b :: l => if b then leadingTrue l + 1 else 0

/-- The number of consecutive correct answers since the last incorrect one:
the length of the maximal all-`true` suffix of the answer sequence. -/
def consecutiveCorrect (l : List Bool) : Nat := leadingTrue l.reverse

/-- Ten consecutive correct answers on one day at the given local hour. -/
def tenCorrectCalls (hour : Nat) : List CheckCall :=
  List.replicate 10
    { correct := true, hour := hour, today := "2024-01-02",
      yesterday := "2024-01-01", nowIso := "t" }

/-- The sequence of contents the data file passes through during
`save_data`: the source opens the data file with mode "w", which truncates
it to empty in place before the serialized state is written; there is no
temp-file-and-rename step, so a concurrent `load` may observe any element
of this trace. -/
def save_data_trace (old new : String) : List String := [old, "", new]

/-- A concrete store with the first_blood achievement already unlocked. -/
def achWitnessData : TrackerData :=
  { emptyData with achievements :=
      [("first_blood", { unlocked_at := "t0", seen := false })] }

/-- Mark first_blood seen, then record one further correct answer. -/
def achWitnessOps : List AchOp :=
  [AchOp.markSeen "first_blood",
   AchOp.check true 9 "2024-01-02" "2024-01-01" "t1"]

/-- A 51-character question whose first 50 characters are all `a`. -/
def collideQ1 : String :=
  "aaaaaaaaaaaaaaaaaaaaaaaaaaaaaaaaaaaaaaaaaaaaaaaaaa" ++ "x"

/-- A different 51-character question with the same first 50 characters. -/
def collideQ2 : String :=
  "aaaaaaaaaaaaaaaaaaaaaaaaaaaaaaaaaaaaaaaaaaaaaaaaaa" ++ "y"

/- `pyLastN` is kept irreducible below so that unification never unfolds
`Nat.sub` against the large literal bounds 5000 and 1000; its behaviour is
exposed through the dedicated lemmas instead. -/
attribute [irreducible] pyLastN

lemma pyInt_eq_floor {x : ℚ} (h : 0 ≤ x) : pyInt x = ⌊x⌋ := by
  simp [pyInt, h]

lemma updateDrill_inv {d : DrillRecord} (hd : DrillInv d) (nowIso : String) (c : Bool) :
    DrillInv (updateDrill d nowIso c) := by
  obtain ⟨he, hi⟩ := hd
  cases c with
  | false =>
    refine ⟨le_max_left _ _, ?_⟩
    simp [updateDrill]
  | true =>
    refine ⟨le_max_left _ _, ?_⟩
    have hef : (1.3 : ℚ) ≤ max 1.3 (d.ease_factor + 0.1) := le_max_left _ _
    have hprod : (1 : ℚ) ≤ (d.interval : ℚ) * max 1.3 (d.ease_factor + 0.1) := by
      have h1 : (1 : ℚ) ≤ (d.interval : ℚ) := by exact_mod_cast hi
      nlinarith
    have h0 : (0 : ℚ) ≤ (d.interval : ℚ) * max 1.3 (d.ease_factor + 0.1) := by linarith
    simp only [updateDrill, if_pos rfl]
    rw [pyInt_eq_floor h0]
    exact Int.le_floor.2 (by exact_mod_cast hprod)

lemma updateDrill_counts (d : DrillRecord) (nowIso : String) (c : Bool) :
    d.correct ≤ (updateDrill d nowIso c).correct ∧
    d.incorrect ≤ (updateDrill d nowIso c).incorrect := by
  cases c <;> simp [updateDrill]

lemma applyAnswers_inv {d : DrillRecord} (hd : DrillInv d) (l : List (String × Bool)) :
    DrillInv (applyAnswers l d) := by
  induction l generalizing d with
  | nil => exact hd
  | cons p rest ih => exact ih (updateDrill_inv hd p.1 p.2)

lemma applyAnswers_counts (d : DrillRecord) (l : List (String × Bool)) :
    d.correct ≤ (applyAnswers l d).correct ∧
    d.incorrect ≤ (applyAnswers l d).incorrect := by
  induction l generalizing d with
  | nil => exact ⟨le_rfl, le_rfl⟩
  | cons p rest ih =>
    have h1 := updateDrill_counts d p.1 p.2
    have h2 := ih (updateDrill d p.1 p.2)
    exact ⟨le_trans h1.1 h2.1, le_trans h1.2 h2.2⟩

/-- C1: starting from the default record (ease 2.5, interval 1), after any
sequence of `record_answer` updates the ease factor stays at least 1.3, the
interval stays at least 1, and the correct/incorrect counts never decrease
across any single further update. -/
theorem drill_invariant_preserved (category file : String) (l : List (String × Bool)) :
    (1.3 ≤ (applyAnswers l (initDrill category file)).ease_factor ∧
      1 ≤ (applyAnswers l (initDrill category file)).interval) ∧
    ∀ (d : DrillRecord) (nowIso : String) (c : Bool),
      d.correct ≤ (updateDrill d nowIso c).correct ∧
      d.incorrect ≤ (updateDrill d nowIso c).incorrect := by
  constructor
  · exact applyAnswers_inv (by constructor <;> norm_num [initDrill, DrillInv]) l
  · exact fun d nowIso c => updateDrill_counts d nowIso c

/-- C2: the exact update equations of `record_answer`.  An incorrect answer
sets `interval` to exactly 1, increments `incorrect` by 1 and sets the ease
factor to `max 1.3 (ease - 0.2)`; a correct answer increments `correct` by 1,
sets the ease factor to `max 1.3 (ease + 0.1)` and then sets the interval
to `⌊interval * ease'⌋` using the updated ease factor `ease'` (for records
satisfying the reachable-state bounds, where Python `int` truncation agrees
with the floor). -/
theorem record_answer_update_equations (d : DrillRecord) (nowIso : String) :
    ((updateDrill d nowIso false).interval = 1 ∧
      (updateDrill d nowIso false).incorrect = d.incorrect + 1 ∧
      (updateDrill d nowIso false).ease_factor = max 1.3 (d.ease_factor - 0.2) ∧
      (updateDrill d nowIso false).correct = d.correct) ∧
    ((updateDrill d nowIso true).correct = d.correct + 1 ∧
      (updateDrill d nowIso true).ease_factor = max 1.3 (d.ease_factor + 0.1) ∧
      (updateDrill d nowIso true).incorrect = d.incorrect) ∧
    (0 ≤ d.interval →
      (updateDrill d nowIso true).interval =
        ⌊(d.interval : ℚ) * max 1.3 (d.ease_factor + 0.1)⌋) := by
  have hfloor : 0 ≤ d.interval → (updateDrill d nowIso true).interval =
      ⌊(d.interval : ℚ) * max 1.3 (d.ease_factor + 0.1)⌋ := by
    intro hi
    have hi' : (0 : ℚ) ≤ (d.interval : ℚ) := by exact_mod_cast hi
    have hef : (0 : ℚ) ≤ max 1.3 (d.ease_factor + 0.1) :=
      le_trans (by norm_num) (le_max_left _ _)
    simp [updateDrill, pyInt_eq_floor (mul_nonneg hi' hef)]
  refine ⟨⟨?_, ?_, ?_, ?_⟩, ⟨?_, ?_, ?_⟩, hfloor⟩ <;> simp [updateDrill]

/-- Witness for C2 at the default record: an incorrect answer gives
(correct 0, incorrect 1, ease 2.3, interval 1), and a correct answer gives
(correct 1, ease 2.6, interval 2 = ⌊1 * 2.6⌋). -/
theorem record_answer_update_equations_witness :
    0 ≤ (initDrill "cat" "f.md").interval ∧
    (updateDrill (initDrill "cat" "f.md") "t0" true).interval =
      ⌊((initDrill "cat" "f.md").interval : ℚ) *
        max 1.3 ((initDrill "cat" "f.md").ease_factor + 0.1)⌋ :=
  ⟨by decide,
    (record_answer_update_equations (initDrill "cat" "f.md") "t0").2.2
      (by decide)⟩

/-- C3: `get_drill_weight` returns 1.0 for a never-answered item (unknown id,
or zero answers); otherwise the weight is
`(0.3 + errorRate * 0.7) * timeFactor` clamped into `[0.1, 3.0]`, where
`errorRate = incorrect / (correct + incorrect)` and `timeFactor` is 1.0
when the whole number of elapsed days is below the interval and
`1.0 + (daysAgo / interval) * 0.5` otherwise. -/
theorem get_drill_weight_spec (data : TrackerData) (file question : String)
    (daysAgo : ℤ) :
    (alLookup data.drills (get_drill_id file question) = none →
      get_drill_weight data file question daysAgo = 1) ∧
    ∀ d, alLookup data.drills (get_drill_id file question) = some d →
      (d.correct + d.incorrect = 0 →
        get_drill_weight data file question daysAgo = 1) ∧
      (d.correct + d.incorrect ≠ 0 → d.last_seen ≠ none →
        get_drill_weight data file question daysAgo =
          max 0.1 (min 3.0
            ((0.3 + ((d.incorrect : ℚ) /
                ((d.correct : ℚ) + (d.incorrect : ℚ))) * 0.7) *
              (if daysAgo < d.interval then 1
                else 1 + ((daysAgo : ℚ) / (d.interval : ℚ)) * 0.5)))) := by
  constructor
  · intro h
    simp [get_drill_weight, h]
  · intro d hd
    constructor
    · intro h0
      simp [get_drill_weight, hd, drillWeightOf, h0]
    · intro h0 hls
      obtain ⟨s, hs⟩ := Option.ne_none_iff_exists.mp (by simpa using hls)
      simp only [get_drill_weight, hd, drillWeightOf, if_neg h0, ← hs]
      have hcast : ((d.correct + d.incorrect : Nat) : ℚ) =
          (d.correct : ℚ) + (d.incorrect : ℚ) := by push_cast; ring
      rw [hcast]
      rcases lt_or_le daysAgo d.interval with hlt | hge
      · rw [if_neg (not_le.mpr hlt), if_pos hlt]
      · rw [if_pos hge, if_neg (not_lt.mpr hge)]

set_option maxRecDepth 10000 in
/-- Witness for C3: an item with 1 correct and 1 incorrect answer, interval 2,
queried 4 whole days after it was last seen. -/
theorem get_drill_weight_spec_witness :
    get_drill_weight weightWitnessData "f.md" "q" 4 =
      max 0.1 (min 3.0
        ((0.3 + ((weightWitnessDrill.incorrect : ℚ) /
            ((weightWitnessDrill.correct : ℚ) +
              (weightWitnessDrill.incorrect : ℚ))) * 0.7) *
          (if (4 : ℤ) < weightWitnessDrill.interval then 1
            else 1 + ((4 : ℚ) / (weightWitnessDrill.interval : ℚ)) * 0.5))) :=
  ((get_drill_weight_spec weightWitnessData "f.md" "q" 4).2 weightWitnessDrill
    rfl).2 (by decide) (by simp [weightWitnessDrill])

lemma cumWalk_mem {pairs : List (Drill × ℚ)} {r c : ℚ} {d : Drill}
    (h : cumWalk pairs r c = some d) : d ∈ pairs.map Prod.fst := by
  induction pairs generalizing c with
  | nil => simp [cumWalk] at h
  | cons p rest ih =>
    obtain ⟨d0, p0⟩ := p
    rw [cumWalk] at h
    by_cases hc : r ≤ c + p0
    · rw [if_pos hc] at h
      simp at h
      simp [h]
    · rw [if_neg hc] at h
      exact List.mem_cons_of_mem _ (ih h)

lemma select_weighted_drill_mem (data : TrackerData) (drills : List Drill)
    (file : String) (days : String → ℤ) (r : ℚ) (hne : drills ≠ []) :
    ∃ d, select_weighted_drill data drills file days r = some d ∧
      d ∈ drills := by
  simp only [select_weighted_drill, if_neg hne]
  cases hcw : cumWalk (drills.zip ((drills.map
      (fun d => get_drill_weight data file d.question (days d.question))).map
      (fun w => w / (drills.map (fun d =>
        get_drill_weight data file d.question (days d.question))).sum))) r 0 with
  | some d =>
    refine ⟨d, rfl, ?_⟩
    have hm := cumWalk_mem hcw
    rwa [List.map_fst_zip _ _ (by simp)] at hm
  | none =>
    exact ⟨drills.getLast hne, List.getLast?_eq_getLast_of_ne_nil hne,
      List.getLast_mem hne⟩

/-- C4: on a non-empty candidate list and any draw in `[0, 1)`, weighted
selection returns an element of the list (falling back to the last
candidate when the cumulative walk selects nothing); on a single-item list
it always returns that item; on the empty list it returns the `none`
sentinel instead of crashing. -/
theorem select_weighted_drill_spec (data : TrackerData) (drills : List Drill)
    (file : String) (days : String → ℤ) (r : ℚ) :
    (drills ≠ [] → 0 ≤ r → r < 1 →
      ∃ d, select_weighted_drill data drills file days r = some d ∧
        d ∈ drills) ∧
    (∀ d0, 0 ≤ r → r < 1 →
      select_weighted_drill data [d0] file days r = some d0) ∧
    select_weighted_drill data [] file days r = none := by
  refine ⟨fun hne _ _ => select_weighted_drill_mem data drills file days r hne,
    fun d0 _ _ => ?_, by simp [select_weighted_drill]⟩
  obtain ⟨d, hsel, hmem⟩ :=
    select_weighted_drill_mem data [d0] file days r (by simp)
  simp only [List.mem_singleton] at hmem
  rwa [hmem] at hsel

/-- Witness for C4 at a concrete two-candidate list, a singleton list and
the empty list, with draw r = 1/2. -/
theorem select_weighted_drill_spec_witness :
    (∃ d, select_weighted_drill emptyData
        [⟨"q1"⟩, ⟨"q2"⟩] "f.md" (fun _ => 0) (1/2) = some d ∧
      d ∈ [(⟨"q1"⟩ : Drill), ⟨"q2"⟩]) ∧
    select_weighted_drill emptyData [⟨"q1"⟩] "f.md" (fun _ => 0) (1/2) =
      some ⟨"q1"⟩ ∧
    select_weighted_drill emptyData [] "f.md" (fun _ => 0) (1/2) = none := by
  have h := select_weighted_drill_spec emptyData [⟨"q1"⟩, ⟨"q2"⟩] "f.md"
    (fun _ => 0) (1/2)
  have h1 := select_weighted_drill_spec emptyData [⟨"q1"⟩] "f.md"
    (fun _ => 0) (1/2)
  exact ⟨h.1 (by simp) (by norm_num) (by norm_num),
    h1.2.1 ⟨"q1"⟩ (by norm_num) (by norm_num), h1.2.2⟩

lemma pyLastN_length_le (n : Nat) (l : List α) : (pyLastN n l).length ≤ n := by
  unfold pyLastN
  simp
  omega

lemma pyLastN_suffix (n : Nat) (l : List α) : (pyLastN n l).IsSuffix l := by
  unfold pyLastN
  exact List.drop_suffix _ _

lemma pyLastN_of_le {n : Nat} {l : List α} (h : l.length ≤ n) : pyLastN n l = l := by
  unfold pyLastN
  simp [Nat.sub_eq_zero_of_le h]

lemma record_answer_log (f q cat : String) (b : Bool) (iso : String)
    (d : TrackerData) :
    (record_answer f q cat b iso d).answers_log =
      pyLastN 5000 (d.answers_log ++
        [{ date := iso, correct := b, file := f, category := cat }]) := rfl

lemma record_answer_sessions (f q cat : String) (b : Bool) (iso : String)
    (d : TrackerData) :
    (record_answer f q cat b iso d).sessions = d.sessions := rfl

lemma record_session_sessions (f : String) (s t : ℤ) (iso : String)
    (d : TrackerData) :
    (record_session f s t iso d).sessions =
      pyLastN 1000 (d.sessions ++
        [{ date := iso, file := f, score := s, total := t }]) := rfl

lemma record_session_log (f : String) (s t : ℤ) (iso : String)
    (d : TrackerData) :
    (record_session f s t iso d).answers_log = d.answers_log := rfl

lemma applyOp_bounds {data : TrackerData} (h1 : data.answers_log.length ≤ 5000)
    (h2 : data.sessions.length ≤ 1000) (op : TrackerOp) :
    (applyOp op data).answers_log.length ≤ 5000 ∧
    (applyOp op data).sessions.length ≤ 1000 := by
  cases op with
  | answer f q cat b iso =>
    constructor
    · rw [show applyOp (.answer f q cat b iso) data =
        record_answer f q cat b iso data from rfl, record_answer_log]
      exact pyLastN_length_le _ _
    · rw [show applyOp (.answer f q cat b iso) data =
        record_answer f q cat b iso data from rfl, record_answer_sessions]
      exact h2
  | session f s t iso =>
    constructor
    · rw [show applyOp (.session f s t iso) data =
        record_session f s t iso data from rfl, record_session_log]
      exact h1
    · rw [show applyOp (.session f s t iso) data =
        record_session f s t iso data from rfl, record_session_sessions]
      exact pyLastN_length_le _ _

lemma applyOps_bounds {data : TrackerData} (ops : List TrackerOp)
    (h1 : data.answers_log.length ≤ 5000) (h2 : data.sessions.length ≤ 1000) :
    (applyOps ops data).answers_log.length ≤ 5000 ∧
    (applyOps ops data).sessions.length ≤ 1000 := by
  induction ops generalizing data with
  | nil => exact ⟨h1, h2⟩
  | cons op rest ih =>
    have h := applyOp_bounds h1 h2 op
    exact ih h.1 h.2

/-- C5: starting from a state within bounds, after any sequence of
`record_answer` and `record_session` calls the answer log holds at most
5000 entries and the session list at most 1000; each call appends its new
entry and then keeps only the most recent entries (the stored list is a
suffix of the appended list, and is the whole appended list whenever the
bound was not yet reached). -/
theorem log_session_bounds (ops : List TrackerOp) (data : TrackerData)
    (h1 : data.answers_log.length ≤ 5000) (h2 : data.sessions.length ≤ 1000) :
    ((applyOps ops data).answers_log.length ≤ 5000 ∧
      (applyOps ops data).sessions.length ≤ 1000) ∧
    (∀ (d : TrackerData) (f q cat iso : String) (b : Bool),
      ((record_answer f q cat b iso d).answers_log).IsSuffix
        (d.answers_log ++
          [{ date := iso, correct := b, file := f, category := cat }]) ∧
      (d.answers_log.length < 5000 →
        (record_answer f q cat b iso d).answers_log =
          d.answers_log ++
            [{ date := iso, correct := b, file := f, category := cat }])) ∧
    (∀ (d : TrackerData) (f iso : String) (s t : ℤ),
      ((record_session f s t iso d).sessions).IsSuffix
        (d.sessions ++ [{ date := iso, file := f, score := s, total := t }]) ∧
      (d.sessions.length < 1000 →
        (record_session f s t iso d).sessions =
          d.sessions ++ [{ date := iso, file := f, score := s, total := t }])) := by
  refine ⟨applyOps_bounds ops h1 h2, fun d f q cat iso b => ?_,
    fun d f iso s t => ?_⟩
  · rw [record_answer_log]
    exact ⟨pyLastN_suffix _ _, fun hlt => pyLastN_of_le (by simp; omega)⟩
  · rw [record_session_sessions]
    exact ⟨pyLastN_suffix _ _, fun hlt => pyLastN_of_le (by simp; omega)⟩

/-- Witness for C5: one answer and one session recorded from the canonical
empty state stay within bounds. -/
theorem log_session_bounds_witness :
    (applyOps [TrackerOp.answer "f.md" "q" "cat" true "t0",
        TrackerOp.session "f.md" 1 2 "t1"] emptyData).answers_log.length ≤ 5000 ∧
    (applyOps [TrackerOp.answer "f.md" "q" "cat" true "t0",
        TrackerOp.session "f.md" 1 2 "t1"] emptyData).sessions.length ≤ 1000 :=
  (log_session_bounds [TrackerOp.answer "f.md" "q" "cat" true "t0",
    TrackerOp.session "f.md" 1 2 "t1"] emptyData
    (Nat.zero_le _) (Nat.zero_le _)).1

/-- C8: `get_drill_difficulty` returns the new-item label (`"Nieuw"`, the
source's rendering of "new") with pct = -1 when the item is unanswered;
otherwise pct = correct / total * 100 and the label is easy (`"Makkelijk"`)
when pct ≥ 80, medium (`"Medium"`) when 50 ≤ pct < 80 and hard
(`"Moeilijk"`) when pct < 50, thresholds inclusive at the lower bound; an
item with 8 correct and 2 incorrect answers gets the easy label with
pct = 80. -/
theorem get_drill_difficulty_spec (data : TrackerData) (file question : String) :
    (alLookup data.drills (get_drill_id file question) = none →
      get_drill_difficulty data file question = ("Nieuw", -1)) ∧
    ∀ d, alLookup data.drills (get_drill_id file question) = some d →
      (d.correct + d.incorrect = 0 →
        get_drill_difficulty data file question = ("Nieuw", -1)) ∧
      (d.correct + d.incorrect ≠ 0 →
        (80 ≤ pctOf d →
          get_drill_difficulty data file question = ("Makkelijk", pctOf d)) ∧
        (50 ≤ pctOf d → pctOf d < 80 →
          get_drill_difficulty data file question = ("Medium", pctOf d)) ∧
        (pctOf d < 50 →
          get_drill_difficulty data file question = ("Moeilijk", pctOf d))) ∧
      (d.correct = 8 → d.incorrect = 2 →
        get_drill_difficulty data file question = ("Makkelijk", 80)) := by
  refine ⟨fun h => by simp [get_drill_difficulty, h], fun d hd => ?_⟩
  have hcast : ((d.correct + d.incorrect : Nat) : ℚ) =
      (d.correct : ℚ) + (d.incorrect : ℚ) := by push_cast; ring
  refine ⟨fun h0 => by simp [get_drill_difficulty, hd, h0], fun h0 => ?_, ?_⟩
  · simp only [get_drill_difficulty, hd, if_neg h0, hcast, ge_iff_le]
    have hpe : pctOf d =
        (d.correct : ℚ) / ((d.correct : ℚ) + (d.incorrect : ℚ)) * 100 := rfl
    rw [← hpe]
    refine ⟨fun h80 => by rw [if_pos h80], fun h50 h80 => ?_, fun h50 => ?_⟩
    · rw [if_neg (not_le.mpr h80), if_pos h50]
    · rw [if_neg (not_le.mpr (lt_trans h50 (by norm_num))),
        if_neg (not_le.mpr h50)]
  · intro h8 h2
    have h0 : d.correct + d.incorrect ≠ 0 := by omega
    simp only [get_drill_difficulty, hd, if_neg h0, hcast, h8, h2]
    norm_num

set_option maxRecDepth 10000 in
/-- Witness for C8: the 8-correct / 2-incorrect item gets the easy label with
pct = 80. -/
theorem get_drill_difficulty_spec_witness :
    get_drill_difficulty difficultyWitnessData "f.md" "q" = ("Makkelijk", 80) :=
  (((get_drill_difficulty_spec difficultyWitnessData "f.md" "q").2 _
    rfl).2.2) rfl rfl

lemma alLookup_append_left {l l' : List (String × β)} {k : String} {v : β}
    (h : alLookup l k = some v) : alLookup (l ++ l') k = some v := by
  induction l with
  | nil => simp [alLookup] at h
  | cons p rest ih =>
    rw [alLookup] at h
    rw [List.cons_append, alLookup]
    by_cases hp : p.1 = k
    · rwa [if_pos hp] at h ⊢
    · rw [if_neg hp] at h ⊢
      exact ih h

lemma alLookup_alSet (l : List (String × β)) (k a : String) (f : β → β) :
    alLookup (alSet l k f) a =
      if a = k then (alLookup l a).map f else alLookup l a := by
  induction l with
  | nil => simp [alSet, alLookup]
  | cons p rest ih =>
    simp only [alSet, List.map_cons] at ih ⊢
    by_cases hpk : p.1 = k <;> by_cases hpa : p.1 = a
    · have hak : a = k := by rw [← hpa, hpk]
      simp [alLookup, hpk, hpa, hak]
    · have hka : ¬ k = a := by rw [← hpk]; exact hpa
      have hak : ¬ a = k := fun h => hka h.symm
      simp [alLookup, hpk, hpa, hka, hak, ih]
    · have hak : ¬ a = k := fun h => hpk (by rw [hpa, h])
      simp [alLookup, hpk, hpa, hak]
    · simp [alLookup, hpk, hpa, ih]

lemma unlock_lookup_preserve {st : List (String × AchRecord) × List String}
    {a : String} {r : AchRecord} (h : alLookup st.1 a = some r)
    (aid nowIso : String) : alLookup (unlock aid nowIso st).1 a = some r := by
  unfold unlock
  split
  · exact h
  · exact alLookup_append_left h

lemma runUnlocks_lookup_preserve {checks : List (Bool × String)}
    {nowIso : String} {st : List (String × AchRecord) × List String}
    {a : String} {r : AchRecord} (h : alLookup st.1 a = some r) :
    alLookup (runUnlocks checks nowIso st).1 a = some r := by
  induction checks generalizing st with
  | nil => exact h
  | cons c rest ih =>
    obtain ⟨cond, aid⟩ := c
    rw [runUnlocks]
    cases cond
    · simpa using ih h
    · simpa using ih (unlock_lookup_preserve h aid nowIso)

lemma check_achievements_lookup_preserve (c : Bool) (hour : Nat)
    (today yesterday nowIso : String) (data : TrackerData)
    {a : String} {r : AchRecord} (h : alLookup data.achievements a = some r) :
    alLookup
      (check_achievements c hour today yesterday nowIso data).1.achievements
      a = some r :=
  runUnlocks_lookup_preserve h

lemma mark_achievement_seen_lookup (aid : String) (data : TrackerData)
    {a : String} {r : AchRecord} (h : alLookup data.achievements a = some r) :
    ∃ r', alLookup (mark_achievement_seen aid data).achievements a = some r' ∧
      r'.unlocked_at = r.unlocked_at := by
  unfold mark_achievement_seen
  split
  · show ∃ r',
      alLookup (alSet data.achievements aid (fun r => { r with seen := true }))
        a = some r' ∧ r'.unlocked_at = r.unlocked_at
    rw [alLookup_alSet]
    by_cases hak : a = aid
    · rw [if_pos hak, h]
      exact ⟨_, rfl, rfl⟩
    · rw [if_neg hak, h]
      exact ⟨r, rfl, rfl⟩
  · exact ⟨r, h, rfl⟩

lemma applyAchOp_preserve (op : AchOp) (data : TrackerData)
    {a : String} {r : AchRecord} (h : alLookup data.achievements a = some r) :
    ∃ r', alLookup (applyAchOp op data).achievements a = some r' ∧
      r'.unlocked_at = r.unlocked_at := by
  cases op with
  | check c hour today yesterday nowIso =>
    exact ⟨r,
      check_achievements_lookup_preserve c hour today yesterday nowIso data h,
      rfl⟩
  | markSeen aid => exact mark_achievement_seen_lookup aid data h

/-- C6: achievement unlock is monotone.  Across any sequence of
`check_achievements` and `mark_achievement_seen` calls, an identifier once
unlocked stays unlocked and its `unlocked_at` timestamp is never
overwritten (so the one field that can change is the `seen` flag);
moreover a single `check_achievements` call keeps every existing
achievement record exactly as it was. -/
theorem achievements_monotone (ops : List AchOp) (data : TrackerData)
    (a : String) (r : AchRecord)
    (h : alLookup data.achievements a = some r) :
    (∃ r', alLookup (applyAchOps ops data).achievements a = some r' ∧
      r'.unlocked_at = r.unlocked_at) ∧
    (∀ (c : Bool) (hour : Nat) (td yd iso : String) (d : TrackerData)
        (r0 : AchRecord), alLookup d.achievements a = some r0 →
      alLookup (check_achievements c hour td yd iso d).1.achievements a =
        some r0) := by
  constructor
  · induction ops generalizing data r with
    | nil => exact ⟨r, h, rfl⟩
    | cons op rest ih =>
      obtain ⟨r1, h1, hu1⟩ := applyAchOp_preserve op data h
      obtain ⟨r2, h2, hu2⟩ := ih (applyAchOp op data) r1 h1
      exact ⟨r2, h2, hu2.trans hu1⟩
  · exact fun c hour td yd iso d r0 h0 =>
      check_achievements_lookup_preserve c hour td yd iso d h0

/-- Witness for C6: a store with first_blood unlocked, after marking it seen
and one further check call, still holds it with the same timestamp. -/
theorem achievements_monotone_witness :
    (∃ r', alLookup
        (applyAchOps achWitnessOps achWitnessData).achievements "first_blood" =
          some r' ∧
      r'.unlocked_at = "t0") ∧
    (∀ (c : Bool) (hour : Nat) (td yd iso : String) (d : TrackerData)
        (r0 : AchRecord),
      alLookup d.achievements "first_blood" = some r0 →
      alLookup (check_achievements c hour td yd iso d).1.achievements
        "first_blood" = some r0) :=
  achievements_monotone achWitnessOps achWitnessData
    "first_blood" { unlocked_at := "t0", seen := false } rfl

lemma updateStatsAnswer_current (c : Bool) (s : GlobalStats) :
    (updateStatsAnswer c s).current_streak =
      if c then s.current_streak + 1 else 0 := by
  cases c <;> rfl

lemma updateStatsDay_current (t y : String) (s : GlobalStats) :
    (updateStatsDay t y s).current_streak = s.current_streak := by
  unfold updateStatsDay
  split <;> rfl

lemma updateStatsDay_best (t y : String) (s : GlobalStats) :
    (updateStatsDay t y s).best_streak = s.best_streak := by
  unfold updateStatsDay
  split <;> rfl

lemma updateStatsAnswer_best_ge (s : GlobalStats) (c : Bool) :
    (updateStatsAnswer c s).current_streak ≤
      (updateStatsAnswer c s).best_streak := by
  cases c with
  | false => simp [updateStatsAnswer]
  | true =>
    show s.current_streak + 1 ≤
      if s.current_streak + 1 > s.best_streak then s.current_streak + 1
      else s.best_streak
    split
    · exact le_rfl
    · omega

lemma check_current_streak (c : Bool) (hour : Nat) (td yd iso : String)
    (d : TrackerData) :
    (check_achievements c hour td yd iso d).1.stats.current_streak =
      if c then d.stats.current_streak + 1 else 0 := by
  show (updateStatsDay td yd (updateStatsAnswer c d.stats)).current_streak = _
  rw [updateStatsDay_current, updateStatsAnswer_current]

lemma check_best_ge (c : Bool) (hour : Nat) (td yd iso : String)
    (d : TrackerData) :
    (check_achievements c hour td yd iso d).1.stats.current_streak ≤
      (check_achievements c hour td yd iso d).1.stats.best_streak := by
  show (updateStatsDay td yd (updateStatsAnswer c d.stats)).current_streak ≤
    (updateStatsDay td yd (updateStatsAnswer c d.stats)).best_streak
  rw [updateStatsDay_current, updateStatsDay_best]
  exact updateStatsAnswer_best_ge d.stats c

lemma runChecks_current (calls : List CheckCall) (d : TrackerData) :
    (runChecks calls d).stats.current_streak =
      (calls.map CheckCall.correct).foldl (fun s b => if b then s + 1 else 0)
        d.stats.current_streak := by
  induction calls generalizing d with
  | nil => rfl
  | cons c rest ih =>
    rw [show runChecks (c :: rest) d = runChecks rest
      (check_achievements c.correct c.hour c.today c.yesterday c.nowIso d).1
      from rfl]
    rw [ih, List.map_cons, List.foldl_cons, check_current_streak]

lemma runChecks_best_ge (calls : List CheckCall) (d : TrackerData)
    (h : d.stats.current_streak ≤ d.stats.best_streak) :
    (runChecks calls d).stats.current_streak ≤
      (runChecks calls d).stats.best_streak := by
  induction calls generalizing d with
  | nil => exact h
  | cons c rest ih =>
    exact ih _ (check_best_ge c.correct c.hour c.today c.yesterday c.nowIso d)

lemma consecutiveCorrect_append (l : List Bool) (b : Bool) :
    consecutiveCorrect (l ++ [b]) =
      if b then consecutiveCorrect l + 1 else 0 := by
  cases b <;> simp [consecutiveCorrect, List.reverse_append, leadingTrue]

lemma foldl_streak (l : List Bool) :
    l.foldl (fun s b => if b then s + 1 else 0) 0 = consecutiveCorrect l := by
  induction l using List.reverseRecOn with
  | nil => rfl
  | append_singleton l b ih =>
    rw [List.foldl_append, List.foldl_cons, List.foldl_nil, ih,
      consecutiveCorrect_append]

/-- C7 (amended): starting from the canonical empty state, after any
sequence of `check_achievements` calls the current streak equals the number
of consecutive correct answers since the last incorrect one, and the best
streak is at least the current streak; ten consecutive correct answers
recorded at local hour 9 (outside the night-owl and early-bird hour
ranges) yield current streak 10, best streak 10, and exactly the
achievements first_blood and on_fire unlocked, in that order. -/
theorem streak_spec :
    (∀ (calls : List CheckCall),
      (runChecks calls emptyData).stats.current_streak =
        consecutiveCorrect (calls.map CheckCall.correct) ∧
      (runChecks calls emptyData).stats.current_streak ≤
        (runChecks calls emptyData).stats.best_streak) ∧
    ((runChecks (tenCorrectCalls 9) emptyData).stats.current_streak = 10 ∧
      (runChecks (tenCorrectCalls 9) emptyData).stats.best_streak = 10 ∧
      (runChecks (tenCorrectCalls 9) emptyData).achievements.map Prod.fst =
        ["first_blood", "on_fire"]) := by
  constructor
  · intro calls
    refine ⟨?_, runChecks_best_ge calls emptyData le_rfl⟩
    rw [runChecks_current]
    exact foldl_streak _
  · refine ⟨?_, ?_, ?_⟩ <;> decide

set_option maxRecDepth 10000 in
/-- C7 counterexample: the claim fixes the unlocked set as exactly
first_blood and on_fire, but the code also consults the local clock: at
local hour 0 the same ten consecutive correct answers from the empty state
additionally unlock night_owl. -/
theorem streak_example_hour_counterexample :
    (runChecks (tenCorrectCalls 0) emptyData).stats.current_streak = 10 ∧
    (runChecks (tenCorrectCalls 0) emptyData).stats.best_streak = 10 ∧
    (runChecks (tenCorrectCalls 0) emptyData).achievements.map Prod.fst =
      ["first_blood", "night_owl", "on_fire"] ∧
    (["first_blood", "night_owl", "on_fire"] : List String) ≠
      ["first_blood", "on_fire"] := by
  refine ⟨?_, ?_, ?_, ?_⟩ <;> decide

/-- C9 counterexample: `save_data` is not atomic.  It opens the data file in
write mode, truncating it in place, so the write trace contains the empty
intermediate content — at the concrete old/new contents below a concurrent
reader can observe a state that is neither the old nor the new document. -/
theorem save_not_atomic_counterexample :
    ∃ c ∈ save_data_trace "olddata" "newdata",
      c ≠ "olddata" ∧ c ≠ "newdata" :=
  ⟨"", by simp [save_data_trace], by decide, by decide⟩

/-- C9 (amended): `save_data` overwrites the persisted state by in-place
truncation (`open(..., "w")` followed by the dump), not by a
write-to-temp-then-rename: for any distinct non-empty old and new
serialized contents, the observable write trace contains a state that is
neither of them (the truncated empty file). -/
theorem save_data_truncation_observable (old new : String)
    (hold : old ≠ "") (hnew : new ≠ "") :
    ∃ c ∈ save_data_trace old new, c ≠ old ∧ c ≠ new :=
  ⟨"", by simp [save_data_trace], fun h => hold h.symm, fun h => hnew h.symm⟩

/-- Witness for the amended C9 at concrete file contents. -/
theorem save_data_truncation_observable_witness :
    ∃ c ∈ save_data_trace "statev1" "statev2", c ≠ "statev1" ∧ c ≠ "statev2" :=
  save_data_truncation_observable "statev1" "statev2" (by decide) (by decide)

lemma record_answer_congr (f q1 q2 cat : String) (b : Bool) (iso : String)
    (data : TrackerData) (h : get_drill_id f q1 = get_drill_id f q2) :
    record_answer f q1 cat b iso data = record_answer f q2 cat b iso data := by
  unfold record_answer
  rw [h]

lemma get_drill_weight_congr (data : TrackerData) (f q1 q2 : String)
    (daysAgo : ℤ) (h : get_drill_id f q1 = get_drill_id f q2) :
    get_drill_weight data f q1 daysAgo = get_drill_weight data f q2 daysAgo := by
  unfold get_drill_weight
  rw [h]

lemma get_drill_difficulty_congr (data : TrackerData) (f q1 q2 : String)
    (h : get_drill_id f q1 = get_drill_id f q2) :
    get_drill_difficulty data f q1 = get_drill_difficulty data f q2 := by
  unfold get_drill_difficulty
  rw [h]

set_option maxRecDepth 10000 in
/-- C10: the item key keeps only the first 50 characters of the question, so
the two distinct 51-character questions below collide to the same drill id,
and `record_answer`, `get_drill_weight` and `get_drill_difficulty` treat
them as one item (a single shared record). -/
theorem drill_id_collision :
    collideQ1 ≠ collideQ2 ∧
    get_drill_id "f.md" collideQ1 = get_drill_id "f.md" collideQ2 ∧
    (∀ (data : TrackerData) (cat : String) (b : Bool) (iso : String),
      record_answer "f.md" collideQ1 cat b iso data =
        record_answer "f.md" collideQ2 cat b iso data) ∧
    (∀ (data : TrackerData) (daysAgo : ℤ),
      get_drill_weight data "f.md" collideQ1 daysAgo =
        get_drill_weight data "f.md" collideQ2 daysAgo) ∧
    (∀ (data : TrackerData),
      get_drill_difficulty data "f.md" collideQ1 =
        get_drill_difficulty data "f.md" collideQ2) := by
  have hid : get_drill_id "f.md" collideQ1 = get_drill_id "f.md" collideQ2 := by
    decide
  exact ⟨by decide, hid,
    fun data cat b iso =>
      record_answer_congr "f.md" collideQ1 collideQ2 cat b iso data hid,
    fun data daysAgo =>
      get_drill_weight_congr data "f.md" collideQ1 collideQ2 daysAgo hid,
    fun data =>
      get_drill_difficulty_congr data "f.md" collideQ1 collideQ2 hid⟩

end Maruni
